import Mathlib

/-!
Verification development for the CONVID24 video-conversion core
(`video_converter/converter.py` and the conversion-control parts of
`convid24.py`).

The Python code is shallowly embedded: pure helpers become Lean functions,
the stateful line-reading loops become folds over the list of diagnostic
lines, the cancellation flag becomes an explicit schedule (the index of the
first loop check that observes the flag as set), and the external
collaborators (filesystem, prober JSON parsing, encoder exit status) become
explicit parameters.  Machine text is modelled as `List Char`, Python float
arithmetic on durations/percentages as exact `ℚ` arithmetic, and Python
`int()` truncation of a positive product as `Int.floor`.
-/

/- ===== 1. Character/string utilities (model of Python `str` operations) ===== -/

/-- Digits of a decimal number to its value, as Python `int(...)` on a
digit-only capture group. -/
def digitsToNat (ds : List Char) : Nat :=
  ds.foldl (fun n c => n * 10 + (c.toNat - '0'.toNat)) 0

/-- Longest prefix of digit characters together with the remainder
(the behaviour of a greedy `\d*` at the current position). -/
def takeDigits : List Char → List Char × List Char
  | [] => ([], [])
  | c :: cs =>
    if c.isDigit then
      let p := takeDigits cs
      (c :: p.1, p.2)
    else ([], c :: cs)

/-- Remove `pat` from the front of `s`, or fail (literal part of a regex
match attempt at a fixed position). -/
def stripLead : List Char → List Char → Option (List Char)
  | s, [] => some s
  | [], _ :: _ => none
  | c :: cs, p :: ps => if c = p then stripLead cs ps else none

/-- Python's substring test `pat in s`. -/
def containsL : List Char → List Char → Bool
  | [], pat => (stripLead [] pat).isSome
  | c :: cs, pat => (stripLead (c :: cs) pat).isSome || containsL cs pat

/- ===== 2. Timestamp regex search =====

Model of `re.search(r"<lit>(\d+):(\d+):(\d+)<sep>(\d+)", line)` where
`<lit>` is the literal `"Duration: "` or `"time="` and `<sep>` is the
unescaped `.` (any character) in `converter.py` and the escaped `\.` in
`convid24.py`.  `dotAny = true` selects the any-character separator.  The
third `(\d+)` is greedy; when the separator is `.` (any char) and no digit
follows the maximal third run, the regex engine backtracks so that the last
digit of the run becomes the fourth group and the digit before it the
separator, which needs a third run of length at least 3. -/

/-- Backtracking outcome for the greedy third digit group followed by an
any-character separator when no separate fourth digit run is available. -/
def fracBacktrack (d1 d2 d3 : List Char) : Option (Nat × Nat × Nat × Nat) :=
  if 3 ≤ d3.length then
    some (digitsToNat d1, digitsToNat d2,
          digitsToNat (d3.take (d3.length - 2)),
          digitsToNat (d3.drop (d3.length - 1)))
  else none

/-- Match `(\d+):(\d+):(\d+)<sep>(\d+)` at the start of `cs`. -/
def matchTimestamp (dotAny : Bool) (cs : List Char) : Option (Nat × Nat × Nat × Nat) :=
  let p1 := takeDigits cs
  if p1.1.isEmpty then none else
  match p1.2 with
  | ':' :: r2 =>
    let p2 := takeDigits r2
    if p2.1.isEmpty then none else
    match p2.2 with
    | ':' :: r4 =>
      let p3 := takeDigits r4
      if p3.1.isEmpty then none else
      match p3.2 with
      | sep :: r6 =>
        let p4 := takeDigits r6
        if (dotAny || sep == '.') && !p4.1.isEmpty then
          some (digitsToNat p1.1, digitsToNat p2.1, digitsToNat p3.1, digitsToNat p4.1)
        else if dotAny then fracBacktrack p1.1 p2.1 p3.1 else none
      | [] => if dotAny then fracBacktrack p1.1 p2.1 p3.1 else none
    | _ => none
  | _ => none

/-- Leftmost-match scan of `re.search`: try the pattern at every start
position, literal `lit` first, then the timestamp groups. -/
def searchTS (dotAny : Bool) (lit : List Char) : List Char → Option (Nat × Nat × Nat × Nat)
  | [] =>
    match stripLead [] lit with
    | some rest => matchTimestamp dotAny rest
    | none => none
  | c :: cs =>
    match stripLead (c :: cs) lit with
    | some rest =>
      match matchTimestamp dotAny rest with
      | some g => some g
      | none => searchTS dotAny lit cs
    | none => searchTS dotAny lit cs

/-- `h * 3600 + m * 60 + s + ms / 100`, the seconds value both loops compute
from the four capture groups. -/
def timeVal (g : Nat × Nat × Nat × Nat) : ℚ :=
  (g.1 : ℚ) * 3600 + (g.2.1 : ℚ) * 60 + (g.2.2.1 : ℚ) + (g.2.2.2 : ℚ) / 100

/-- Result of the `Duration: ` regex search on a line, in seconds. -/
def durSearch (dotAny : Bool) (line : List Char) : Option ℚ :=
  (searchTS dotAny ("Duration: ".toList) line).map timeVal

/-- Result of the `time=` regex search on a line, in seconds. -/
def timeSearch (dotAny : Bool) (line : List Char) : Option ℚ :=
  (searchTS dotAny ("time=".toList) line).map timeVal

/- ===== 3. Progress loop (`convert_file` in converter.py, lines 127-142) ===== -/

/-- One iteration of the line loop: given the current `duration` state and a
line, the new state and the optional percentage passed to the callback.
Mirrors the `if "Duration" in line and duration is None ... elif "time=" in
line and duration ...` bodies, including the Python truthiness test on
`duration` (a zero duration never emits). -/
def stepLine (dotAny : Bool) (dur : Option ℚ) (line : List Char) : Option ℚ × Option ℚ :=
  match dur with
  | none =>
    if containsL line ("Duration".toList) = true then
      match durSearch dotAny line with
      | some v => (some v, none)
      | none => (none, none)
    else (none, none)
  | some d =>
    if containsL line ("time=".toList) = true ∧ d ≠ 0 then
      match timeSearch dotAny line with
      | some e => (some d, some (min (e / d * 100) 100))
      | none => (some d, none)
    else (some d, none)

/-- The whole reading loop: final `duration` state and the list of
percentages emitted to the progress callback, in order. -/
def runLoop (dotAny : Bool) : Option ℚ → List (List Char) → Option ℚ × List ℚ
  | dur, [] => (dur, [])
  | dur, l :: ls =>
    let st := stepLine dotAny dur l
    let rest := runLoop dotAny st.1 ls
    (rest.1, st.2.toList ++ rest.2)

/-- Time parse of a single line as the emission branch sees it: the
`"time=" in line` guard followed by the regex search. -/
def timeParse (dotAny : Bool) (l : List Char) : Option ℚ :=
  if containsL l ("time=".toList) = true then timeSearch dotAny l else none

/-- Closed form of the emissions once the duration is fixed at `d`:
nothing if `d` is falsy, otherwise `min (elapsed / d * 100) 100` for every
line whose `time=` search succeeds. -/
def emitsAfter (dotAny : Bool) (d : ℚ) (lines : List (List Char)) : List ℚ :=
  if d = 0 then []
  else (lines.filterMap (timeParse dotAny)).map (fun e => min (e / d * 100) 100)

/-- First line whose duration branch fires (substring guard plus successful
regex search): its parsed value and the remaining lines. -/
def findDur (dotAny : Bool) : List (List Char) → Option (ℚ × List (List Char))
  | [] => none
  | l :: ls =>
    if containsL l ("Duration".toList) = true then
      match durSearch dotAny l with
      | some v => some (v, ls)
      | none => findDur dotAny ls
    else findDur dotAny ls

/- ===== 4. Single-file conversion (`convert_file`, converter.py 113-149) ===== -/

/-- Observable outcome of one `convert_file` call.  `emissions` is the full
sequence of values passed to the progress callback, including the final
`100` emitted on a zero exit status. -/
structure CFOutcome where
  started : Bool
  emissions : List ℚ
  final100 : Bool
  failureReported : Bool
  deriving DecidableEq

/-- Model of `convert_file`: `outputExists` is `output_file.exists()`,
`hasCb` whether a progress callback was supplied, `lines` the diagnostic
lines of the encoder subprocess and `exitCode` its exit status.  The
`converter.py` parsing loop uses the unescaped-dot patterns
(`dotAny = true`). -/
def convert_file (outputExists hasCb : Bool) (lines : List (List Char))
    (exitCode : Int) : CFOutcome :=
  if outputExists then ⟨false, [], false, false⟩
  else
    let ems := if hasCb then (runLoop true none lines).2 else []
    if exitCode ≠ 0 then ⟨true, ems, false, true⟩
    else ⟨true, ems ++ (if hasCb then [100] else []), hasCb, false⟩

/- ===== 5. Controlled conversion (`convert_file_with_control`, convid24.py 52-103) ===== -/

/-- Whether the shared cancellation flag reads true at the `t`-th flag check
of a loop.  The flag is set once and never cleared during a run, so it is
modelled by the index of the first check that observes it:
`cancelAt = some k` means checks `0, …, k-1` see false and checks from `k`
on see true; `none` means it is never set. -/
def cancelHit : Option Nat → Nat → Bool
  | none, _ => false
  | some k, t => k ≤ t

/-- The reading loop of `convert_file_with_control`: before consuming line
`i` the cancellation flag is checked (twice in the source, around the pause
wait; both checks read the same modelled value), and on a hit the
subprocess is terminated and reading stops.  The pause flag is modelled as
never set (it only delays polling and emits nothing).  Returns the
emissions and whether the loop terminated the subprocess.  This loop uses
the escaped-dot patterns (`dotAny = false`). -/
def loopWC (cancelAt : Option Nat) : Nat → Option ℚ → List (List Char) → List ℚ × Bool
  | _, _, [] => ([], false)
  | i, dur, l :: ls =>
    if cancelHit cancelAt i then ([], true)
    else
      let st := stepLine false dur l
      let rest := loopWC cancelAt (i + 1) st.1 ls
      (st.2.toList ++ rest.1, rest.2)

/-- Observable outcome of one `convert_file_with_control` call. -/
structure WCOutcome where
  skipped : Bool
  emissions : List ℚ
  terminated : Bool
  failureReported : Bool
  deriving DecidableEq

/-- Model of `convert_file_with_control` with a progress callback supplied.
After the loop, the final flag check happens at index `lines.length`; a
still-unset flag together with a zero exit status emits the final `100`,
and a nonzero exit status with an unset flag reports failure. -/
def convert_file_with_control (outputExists : Bool) (cancelAt : Option Nat)
    (lines : List (List Char)) (exitCode : Int) : WCOutcome :=
  if outputExists then ⟨true, [], false, false⟩
  else
    let r := loopWC cancelAt 0 none lines
    let cancelledEnd := cancelHit cancelAt lines.length
    ⟨false,
     r.1 ++ (if exitCode = 0 ∧ cancelledEnd = false then [100] else []),
     r.2,
     exitCode ≠ 0 ∧ cancelledEnd = false⟩

/- ===== 6. Batch scheduling loop (`process_conversion`, convid24.py 579-615) ===== -/

/-- The per-file cancellation checks of the scheduling loop: before starting
file `i` the flag is read (twice around the pause wait; same modelled
value); on a hit the loop breaks.  Returns the files actually started. -/
def schedLoop (cancelAt : Option Nat) : Nat → List String → List String
  | _, [] => []
  | i, f :: fs =>
    if cancelHit cancelAt i then []
    else f :: schedLoop cancelAt (i + 1) fs

/-- Files started by the scheduling loop given a cancellation schedule. -/
def schedulerStarted (cancelAt : Option Nat) (files : List String) : List String :=
  schedLoop cancelAt 0 files

/- ===== 7. Bitrate normalizer (`equivalent_aac_bitrate`, converter.py 35-64) ===== -/

def EFFICIENT_CODECS : List String := ["aac", "opus", "vorbis"]

def LEGACY_LOSSY_CODECS : List String := ["mp3", "wma", "wma2", "ac3", "eac3", "dts", "atrac3"]

def LOSSLESS_CODECS : List String := ["flac", "alac", "pcm_s16le", "pcm_s24le", "pcm_s32le", "mlp"]

/-- The channel-based default used when the source bitrate is missing or
nonpositive. -/
def channelDefault (channels : Option Int) : Int :=
  if channels = some 1 then 128000
  else if channels = some 2 then 320000
  else 512000

/-- Model of `equivalent_aac_bitrate`.  A missing bitrate (`None`, falsy in
`not bitrate`) or a nonpositive one takes the channel default; otherwise the
codec-family scale is applied (the float products `bitrate * 0.8` and
`bitrate * 1.5` truncated by `int()` are modelled as exact rational
products floored, the scale-1 cases stay integral) and the result is
clamped per channel count with `min(max(lo, target), hi)`.  A missing
channel count (`None`) compares unequal to 1 and 2 and falls into the
else branch, as in Python. -/
def equivalent_aac_bitrate (codec : String) (bitrate : Option Int)
    (channels : Option Int) : Int :=
  match bitrate with
  | none => channelDefault channels
  | some b =>
    if b ≤ 0 then channelDefault channels
    else
      let target : Int :=
        if codec ∈ EFFICIENT_CODECS then b
        else if codec ∈ LEGACY_LOSSY_CODECS then ⌊(b : ℚ) * (8 / 10)⌋
        else if codec ∈ LOSSLESS_CODECS then ⌊(b : ℚ) * (3 / 2)⌋
        else b
      if channels = some 1 then min (max 32000 target) 128000
      else if channels = some 2 then min (max 64000 target) 320000
      else min (max 192000 target) 512000

/-- Specification-side bitrate policy, written from the words of the spec
and of claim C2: a channel-based default (mono 128000, stereo 320000,
otherwise 512000) when the bitrate is missing or nonpositive; otherwise
`int(bitrate * scale)` with scale 1 for the efficient set and unknown
codecs, 0.8 for the legacy lossy set and 1.5 for the lossless set, clamped
to `[32000, 128000]` for one channel, `[64000, 320000]` for two and
`[192000, 512000]` otherwise. -/
def target_audio_bitrate_spec (codec : String) (bitrate : Option Int)
    (channels : Option Int) : Int :=
  match bitrate with
  | none =>
    if channels = some 1 then 128000
    else if channels = some 2 then 320000
    else 512000
  | some b =>
    if b ≤ 0 then
      if channels = some 1 then 128000
      else if channels = some 2 then 320000
      else 512000
    else
      let scale : ℚ :=
        if codec ∈ (["aac", "opus", "vorbis"] : List String) then 1
        else if codec ∈ (["mp3", "wma", "wma2", "ac3", "eac3", "dts", "atrac3"] : List String) then 8 / 10
        else if codec ∈ (["flac", "alac", "pcm_s16le", "pcm_s24le", "pcm_s32le", "mlp"] : List String) then 3 / 2
        else 1
      let t : Int := ⌊(b : ℚ) * scale⌋
      if channels = some 1 then max 32000 (min t 128000)
      else if channels = some 2 then max 64000 (min t 320000)
      else max 192000 (min t 512000)

/- ===== 8. Command planner (`build_ffmpeg_command`, converter.py 67-110) ===== -/

/-- One probed stream, with the Python-side extraction defaults already
applied: `codec_type`/`codec_name` default to the empty string, `bit_rate`
is the `int(stream.get("bit_rate", 0) or 0)` value (0 when missing or
unparsable), `channels` is `stream.get("channels", 2)` which is `None` when
the probed value was JSON null. -/
structure StreamInfo where
  index : Int
  codec_type : String
  codec_name : String
  channels : Option Int
  bit_rate : Int
  deriving DecidableEq

/-- Arguments a video stream contributes: its `-map`, then `copy` when the
codec is already h264, else a libx264 transcode with crf and preset. -/
def videoArgs (s : StreamInfo) (v : Nat) (crf : Int) (preset : String) : List String :=
  ["-map", "0:" ++ toString s.index] ++
  (if s.codec_name = "h264" then ["-c:v:" ++ toString v, "copy"]
   else ["-c:v:" ++ toString v, "libx264", "-crf", toString crf, "-preset", preset])

/-- Arguments an audio stream contributes: its `-map`, then `copy` when the
codec is already aac and the source bitrate reaches the computed target,
else an aac transcode at the target bitrate with the fixed profile. -/
def audioArgs (s : StreamInfo) (a : Nat) : List String :=
  let target := equivalent_aac_bitrate s.codec_name (some s.bit_rate) s.channels
  ["-map", "0:" ++ toString s.index] ++
  (if s.codec_name = "aac" ∧ s.bit_rate ≥ target then ["-c:a:" ++ toString a, "copy"]
   else ["-c:a:" ++ toString a, "aac", "-profile:a", "aac_low",
         "-b:a:" ++ toString a, toString target])

/-- The per-stream loop of `build_ffmpeg_command` with its two output
counters `v_map_idx` and `a_map_idx`; streams of any other type contribute
nothing. -/
def streamArgs : List StreamInfo → Nat → Nat → Int → String → List String
  | [], _, _, _, _ => []
  | s :: rest, v, a, crf, preset =>
    if s.codec_type = "video" then
      videoArgs s v crf preset ++ streamArgs rest (v + 1) a crf preset
    else if s.codec_type = "audio" then
      audioArgs s a ++ streamArgs rest v (a + 1) crf preset
    else streamArgs rest v a crf preset

/-- Model of `build_ffmpeg_command`, parameterised by the probed stream
list (the effectful `get_streams` call). -/
def build_ffmpeg_command (input output : String) (streams : List StreamInfo)
    (crf : Int) (preset : String) : List String :=
  ["ffmpeg", "-y", "-i", input] ++ streamArgs streams 0 0 crf preset ++
  ["-movflags", "+faststart", output]

/-- Arguments of one stream at given per-type output indices (the loop body
of `build_ffmpeg_command` factored over the type dispatch). -/
def chunkFor (s : StreamInfo) (v a : Nat) (crf : Int) (preset : String) : List String :=
  if s.codec_type = "video" then videoArgs s v crf preset
  else if s.codec_type = "audio" then audioArgs s a
  else []

/-- Number of streams of the given type in a list. -/
def countType (t : String) (l : List StreamInfo) : Nat :=
  l.countP (fun s => s.codec_type == t)

/-- Specification-side middle of the command, written from the words of
claim C9: each stream contributes its chunk at output indices equal to the
number of preceding streams of the same type (so video and audio are
numbered 0, 1, 2, … independently, in source order). -/
def specMiddle (crf : Int) (preset : String) : List StreamInfo → List StreamInfo → List String
  | _, [] => []
  | seen, s :: rest =>
    chunkFor s (countType "video" seen) (countType "audio" seen) crf preset ++
    specMiddle crf preset (seen ++ [s]) rest

/- ===== 9. Batch overall progress (`batch_convert`, converter.py 152-167,
and `process_conversion`, convid24.py 600-605) ===== -/

/-- The overall-progress values `batch_convert` delivers: for the file at
1-based position `i` with per-file emissions `ps`, each percent `p` becomes
`(i - 1 + p / 100) / total_files * 100`. -/
def batchGo (n : ℚ) : Nat → List (List ℚ) → List ℚ
  | _, [] => []
  | i, ps :: rest =>
    ps.map (fun p => (((i : ℚ) - 1) + p / 100) / n * 100) ++ batchGo n (i + 1) rest

/-- Overall-progress sequence of `batch_convert` over the per-file
emission lists. -/
def batch_overalls (perFile : List (List ℚ)) : List ℚ :=
  batchGo (perFile.length : ℚ) 1 perFile

/-- The overall-progress values `process_conversion` delivers: the counter
`converted_count` starts at 0 and is incremented after each file, and each
percent `p` becomes `(converted_count + p / 100) / total_files * 100`. -/
def procGo (n : ℚ) : Nat → List (List ℚ) → List ℚ
  | _, [] => []
  | cc, ps :: rest =>
    ps.map (fun p => ((cc : ℚ) + p / 100) / n * 100) ++ procGo n (cc + 1) rest

/-- Overall-progress sequence of `process_conversion` over the per-file
emission lists (no cancellation, every file consumed). -/
def process_overalls (perFile : List (List ℚ)) : List ℚ :=
  procGo (perFile.length : ℚ) 0 perFile

/- ===== 10. Output paths (`batch_convert` line 160, `convert_file` 118) ===== -/

def VIDEO_EXTENSIONS : List String :=
  [".mov", ".avi", ".mkv", ".mpg", ".mp4", ".wmv",
   ".flv", ".webm", ".vob", ".m4v", ".ts", ".m2ts", ".rm", ".rmvb", ".ogv"]

/-- Index of the last occurrence of `c` in `name`, as `str.rfind`. -/
def rfindChar : List Char → Char → Option Nat
  | [], _ => none
  | x :: xs, c =>
    match rfindChar xs c with
    | some i => some (i + 1)
    | none => if x = c then some 0 else none

/-- `PurePath.suffix` of a file name: the part from the last dot on, empty
unless that dot is neither the first nor the last character. -/
def pathSuffix (name : List Char) : List Char :=
  match rfindChar name '.' with
  | some i => if 0 < i ∧ i < name.length - 1 then name.drop i else []
  | none => []

/-- `PurePath.with_suffix` of a file name: drop the old suffix if any, then
append the new one. -/
def withSuffixL (name suf : List Char) : List Char :=
  let old := pathSuffix name
  if old.isEmpty then name ++ suf
  else name.take (name.length - old.length) ++ suf

/-- ASCII lowercasing, as `str.lower` on extension strings. -/
def toLowerL (s : List Char) : List Char := s.map Char.toLower

/-- The enumeration test of `batch_convert`: the lowercased suffix is a
supported video extension. -/
def isVideoName (name : List Char) : Bool :=
  (VIDEO_EXTENSIONS.map String.toList).contains (toLowerL (pathSuffix name))

/-- Output path computed by the batch loop: `file.with_suffix(".mp4")`. -/
def batchOutputName (name : List Char) : List Char :=
  withSuffixL name (".mp4".toList)

/-- One iteration of the `batch_convert` loop on `name`: `convert_file`
with the existence of the computed output path decided by the filesystem
oracle `fs`. -/
def batchStep (fs : List Char → Bool) (name : List Char) (lines : List (List Char))
    (exitCode : Int) : CFOutcome :=
  convert_file (fs (batchOutputName name)) true lines exitCode

/- ===== 11. Stream prober (`get_streams`, converter.py 19-32) ===== -/

/-- A parsed JSON value as Python's `json.loads` produces it. -/
inductive PyJson where
  | null : PyJson
  | bool : Bool → PyJson
  | num : ℚ → PyJson
  | str : String → PyJson
  | arr : List PyJson → PyJson
  | obj : List (String × PyJson) → PyJson

/-- Result of a `get_streams` call: a returned Python value, or an
uncaught exception escaping the function. -/
inductive GetStreamsResult where
  | ok : PyJson → GetStreamsResult
  | raised : GetStreamsResult

/-- Model of `get_streams`, parameterised by the outcome of
`json.loads(result.stdout)`: a `JSONDecodeError` is caught and yields the
empty list; a parsed dict yields `.get("streams", [])`; any other parsed
value (list, number, string, bool, null) hits `.get` on a non-dict and
raises an uncaught `AttributeError`. -/
def get_streams (parsed : Except Unit PyJson) : GetStreamsResult :=
  match parsed with
  | .error _ => .ok (.arr [])
  | .ok (.obj kvs) => .ok ((List.lookup "streams" kvs).getD (.arr []))
  | .ok _ => .raised

/- ===== Helper lemmas: progress loop structure ===== -/

theorem timeVal_nonneg (g : Nat × Nat × Nat × Nat) : 0 ≤ timeVal g := by
  unfold timeVal
  positivity

theorem durSearch_nonneg (dotAny : Bool) (l : List Char) (v : ℚ)
    (h : durSearch dotAny l = some v) : 0 ≤ v := by
  unfold durSearch at h
  cases hs : searchTS dotAny ("Duration: ".toList) l with
  | none => rw [hs] at h; simp at h
  | some g =>
    rw [hs] at h
    simp at h
    rw [← h]
    exact timeVal_nonneg g

theorem timeSearch_nonneg (dotAny : Bool) (l : List Char) (v : ℚ)
    (h : timeSearch dotAny l = some v) : 0 ≤ v := by
  unfold timeSearch at h
  cases hs : searchTS dotAny ("time=".toList) l with
  | none => rw [hs] at h; simp at h
  | some g =>
    rw [hs] at h
    simp at h
    rw [← h]
    exact timeVal_nonneg g

theorem stepLine_some (dotAny : Bool) (d : ℚ) (l : List Char) :
    stepLine dotAny (some d) l =
      (some d, if d = 0 then none
               else (timeParse dotAny l).map (fun e => min (e / d * 100) 100)) := by
  unfold stepLine timeParse
  by_cases hd : d = 0
  · simp [hd]
  · by_cases hc : containsL l ("time=".toList) = true
    · cases hts : timeSearch dotAny l <;> simp_all
    · simp_all

theorem emitsAfter_cons (dotAny : Bool) (d : ℚ) (l : List Char) (ls : List (List Char)) :
    emitsAfter dotAny d (l :: ls) =
      (if d = 0 then none
       else (timeParse dotAny l).map (fun e => min (e / d * 100) 100)).toList ++
      emitsAfter dotAny d ls := by
  unfold emitsAfter
  by_cases hd : d = 0
  · simp [hd]
  · cases htp : timeParse dotAny l <;> simp [hd, htp, List.filterMap_cons]

theorem runLoop_some (dotAny : Bool) (d : ℚ) (lines : List (List Char)) :
    runLoop dotAny (some d) lines = (some d, emitsAfter dotAny d lines) := by
  induction lines with
  | nil => simp [runLoop, emitsAfter]
  | cons l ls ih =>
    simp only [runLoop, stepLine_some, ih, emitsAfter_cons]

theorem runLoop_none (dotAny : Bool) (lines : List (List Char)) :
    runLoop dotAny none lines =
      ((findDur dotAny lines).map Prod.fst,
       (findDur dotAny lines).elim [] (fun p => emitsAfter dotAny p.1 p.2)) := by
  induction lines with
  | nil => simp [runLoop, findDur]
  | cons l ls ih =>
    by_cases hc : containsL l ("Duration".toList) = true <;>
      simp only [String.toList] at hc
    · cases hds : durSearch dotAny l with
      | some v => simp [runLoop, stepLine, findDur, hc, hds, runLoop_some]
      | none => simp [runLoop, stepLine, findDur, hc, hds, ih]
    · simp [runLoop, stepLine, findDur, hc, ih]

theorem findDur_nonneg (dotAny : Bool) (lines : List (List Char)) (d : ℚ)
    (rest : List (List Char)) (h : findDur dotAny lines = some (d, rest)) : 0 ≤ d := by
  induction lines with
  | nil => simp [findDur] at h
  | cons l ls ih =>
    by_cases hc : containsL l ("Duration".toList) = true
    · cases hds : durSearch dotAny l with
      | some v =>
        rw [findDur, if_pos hc, hds] at h
        simp at h
        rw [← h.1]
        exact durSearch_nonneg dotAny l v hds
      | none =>
        rw [findDur, if_pos hc, hds] at h
        exact ih h
    · rw [findDur, if_neg hc] at h
      exact ih h

theorem findDur_split (dotAny : Bool) (lines : List (List Char)) (d : ℚ)
    (rest : List (List Char)) (h : findDur dotAny lines = some (d, rest)) :
    ∃ pre l0, lines = pre ++ l0 :: rest := by
  induction lines with
  | nil => simp [findDur] at h
  | cons l ls ih =>
    by_cases hc : containsL l ("Duration".toList) = true
    · cases hds : durSearch dotAny l with
      | some v =>
        rw [findDur, if_pos hc, hds] at h
        simp at h
        exact ⟨[], l, by rw [h.2, List.nil_append]⟩
      | none =>
        rw [findDur, if_pos hc, hds] at h
        obtain ⟨pre, l0, hp⟩ := ih h
        exact ⟨l :: pre, l0, by rw [hp]; rfl⟩
    · rw [findDur, if_neg hc] at h
      obtain ⟨pre, l0, hp⟩ := ih h
      exact ⟨l :: pre, l0, by rw [hp]; rfl⟩

theorem stepLine_state_nonneg (dotAny : Bool) (dur : Option ℚ) (l : List Char)
    (hdur : ∀ x, dur = some x → 0 ≤ x) :
    ∀ x, (stepLine dotAny dur l).1 = some x → 0 ≤ x := by
  intro x hx
  cases dur with
  | none =>
    unfold stepLine at hx
    by_cases hc : containsL l ("Duration".toList) = true
    · rw [if_pos hc] at hx
      cases hds : durSearch dotAny l with
      | some v =>
        rw [hds] at hx
        simp at hx
        rw [← hx]
        exact durSearch_nonneg dotAny l v hds
      | none => rw [hds] at hx; simp at hx
    · rw [if_neg hc] at hx; simp at hx
  | some d =>
    rw [stepLine_some] at hx
    simp at hx
    rw [← hx]
    exact hdur d rfl

theorem stepLine_emit_bounds (dotAny : Bool) (dur : Option ℚ) (l : List Char)
    (hdur : ∀ x, dur = some x → 0 ≤ x) :
    ∀ q, (stepLine dotAny dur l).2 = some q → 0 ≤ q ∧ q ≤ 100 := by
  intro q hq
  cases dur with
  | none =>
    unfold stepLine at hq
    by_cases hc : containsL l ("Duration".toList) = true
    · rw [if_pos hc] at hq
      cases hds : durSearch dotAny l with
      | some v => rw [hds] at hq; simp at hq
      | none => rw [hds] at hq; simp at hq
    · rw [if_neg hc] at hq; simp at hq
  | some d =>
    rw [stepLine_some] at hq
    by_cases hd : d = 0
    · simp [hd] at hq
    · simp only [hd, if_neg, if_false] at hq
      cases htp : timeParse dotAny l with
      | none => rw [htp] at hq; simp at hq
      | some e =>
        rw [htp] at hq
        simp at hq
        have he : 0 ≤ e := by
          unfold timeParse at htp
          by_cases hc : containsL l ("time=".toList) = true
          · rw [if_pos hc] at htp
            exact timeSearch_nonneg dotAny l e htp
          · rw [if_neg hc] at htp; simp at htp
        have hdpos : 0 < d := lt_of_le_of_ne (hdur d rfl) (Ne.symm hd)
        constructor
        · rw [← hq]
          exact le_min (by positivity) (by norm_num)
        · rw [← hq]
          exact min_le_right _ _

theorem runLoop_bounds (dotAny : Bool) (lines : List (List Char)) :
    ∀ dur, (∀ x, dur = some x → 0 ≤ x) →
      ∀ q ∈ (runLoop dotAny dur lines).2, 0 ≤ q ∧ q ≤ 100 := by
  induction lines with
  | nil => intro dur _ q hq; simp [runLoop] at hq
  | cons l ls ih =>
    intro dur hdur q hq
    rw [runLoop] at hq
    simp only [List.mem_append] at hq
    cases hq with
    | inl hq =>
      cases hst : (stepLine dotAny dur l).2 with
      | none => rw [hst] at hq; simp at hq
      | some e =>
        rw [hst] at hq
        simp at hq
        rw [hq]
        exact stepLine_emit_bounds dotAny dur l hdur e hst
    | inr hq =>
      exact ih (stepLine dotAny dur l).1 (stepLine_state_nonneg dotAny dur l hdur) q hq

theorem runLoop_none_mono (dotAny : Bool) (lines : List (List Char))
    (h : List.Pairwise (· ≤ ·) (lines.filterMap (timeParse dotAny))) :
    List.Pairwise (· ≤ ·) (runLoop dotAny none lines).2 := by
  rw [runLoop_none]
  cases hfd : findDur dotAny lines with
  | none => simp
  | some p =>
    obtain ⟨d, rest⟩ := p
    simp only [Option.elim]
    unfold emitsAfter
    by_cases hd : d = 0
    · simp [hd]
    · rw [if_neg hd]
      have hdpos : 0 < d :=
        lt_of_le_of_ne (findDur_nonneg dotAny lines d rest hfd) (Ne.symm hd)
      obtain ⟨pre, l0, hsplit⟩ := findDur_split dotAny lines d rest hfd
      have hsub : List.Sublist (rest.filterMap (timeParse dotAny))
          (lines.filterMap (timeParse dotAny)) := by
        apply List.Sublist.filterMap
        rw [hsplit]
        exact List.sublist_append_of_sublist_right
          (List.sublist_cons_of_sublist l0 (List.Sublist.refl rest))
      refine List.Pairwise.map _ ?_ (h.sublist hsub)
      intro a b hab
      have : a / d * 100 ≤ b / d * 100 := by gcongr
      exact min_le_min this le_rfl

/- ===== Helper lemmas: control loop and scheduler ===== -/

theorem loopWC_none_eq (lines : List (List Char)) :
    ∀ i dur, loopWC none i dur lines = ((runLoop false dur lines).2, false) := by
  induction lines with
  | nil => intro i dur; simp [loopWC, runLoop]
  | cons l ls ih => intro i dur; simp [loopWC, runLoop, cancelHit, ih]

theorem loopWC_some_eq (k : Nat) (lines : List (List Char)) :
    ∀ i dur, loopWC (some k) i dur lines =
      ((runLoop false dur (lines.take (k - i))).2, decide (k - i < lines.length)) := by
  induction lines with
  | nil => intro i dur; simp [loopWC, runLoop]
  | cons l ls ih =>
    intro i dur
    by_cases hk : k ≤ i
    · have h0 : k - i = 0 := Nat.sub_eq_zero_of_le hk
      simp [loopWC, cancelHit, hk, h0, runLoop]
    · have hch : cancelHit (some k) i = false := by
        simp only [cancelHit, decide_eq_false_iff_not]
        omega
      have h1 : k - i = (k - (i + 1)) + 1 := by omega
      have h3 : decide (k - (i + 1) + 1 < ls.length + 1) = decide (k - (i + 1) < ls.length) := by
        simp only [decide_eq_decide]
        omega
      simp only [loopWC, hch, Bool.false_eq_true, if_false]
      rw [ih (i + 1)]
      rw [h1, List.take_succ_cons]
      simp only [runLoop, List.length_cons, h3]

theorem schedLoop_some_eq (j : Nat) (files : List String) :
    ∀ i, schedLoop (some j) i files = files.take (j - i) := by
  induction files with
  | nil => intro i; simp [schedLoop]
  | cons f fs ih =>
    intro i
    by_cases hj : j ≤ i
    · have h0 : j - i = 0 := Nat.sub_eq_zero_of_le hj
      simp [schedLoop, cancelHit, hj, h0]
    · have h1 : j - i = (j - (i + 1)) + 1 := by omega
      rw [schedLoop]
      rw [if_neg (by simp [cancelHit]; omega)]
      rw [ih (i + 1), h1, List.take_succ_cons]

theorem convert_file_emissions (lines : List (List Char)) (exit : Int) :
    (convert_file false true lines exit).emissions =
      (runLoop true none lines).2 ++ (if exit = 0 then [100] else []) := by
  by_cases he : exit = 0 <;> simp [convert_file, he]

theorem wc_emissions_eq (cancelAt : Option Nat) (lines : List (List Char)) (exit : Int) :
    (convert_file_with_control false cancelAt lines exit).emissions =
      (runLoop false none (lines.take (cancelAt.getD lines.length))).2 ++
      (if exit = 0 ∧ cancelHit cancelAt lines.length = false then [100] else []) := by
  cases cancelAt with
  | none => simp [convert_file_with_control, loopWC_none_eq, List.take_length]
  | some k => simp [convert_file_with_control, loopWC_some_eq]

/- ===== Helper lemmas: command planner ===== -/

theorem streamArgs_cons (s : StreamInfo) (rest : List StreamInfo) (v a : Nat)
    (crf : Int) (preset : String) :
    streamArgs (s :: rest) v a crf preset =
      chunkFor s v a crf preset ++
      streamArgs rest (v + (if s.codec_type == "video" then 1 else 0))
        (a + (if s.codec_type == "audio" then 1 else 0)) crf preset := by
  by_cases hv : s.codec_type = "video"
  · simp [streamArgs, chunkFor, hv]
  · by_cases ha : s.codec_type = "audio"
    · simp [streamArgs, chunkFor, hv, ha]
    · simp [streamArgs, chunkFor, hv, ha]

theorem specMiddle_streamArgs (crf : Int) (preset : String) (streams : List StreamInfo) :
    ∀ seen, specMiddle crf preset seen streams =
      streamArgs streams (countType "video" seen) (countType "audio" seen) crf preset := by
  induction streams with
  | nil => intro seen; rfl
  | cons s rest ih =>
    intro seen
    rw [specMiddle, streamArgs_cons, ih (seen ++ [s])]
    have hv : countType "video" (seen ++ [s]) =
        countType "video" seen + (if s.codec_type == "video" then 1 else 0) := by
      simp [countType, List.countP_append, List.countP_cons]
    have ha : countType "audio" (seen ++ [s]) =
        countType "audio" seen + (if s.codec_type == "audio" then 1 else 0) := by
      simp [countType, List.countP_append, List.countP_cons]
    rw [hv, ha]

/- ===== Helper lemmas: batch overall progress ===== -/

theorem batchGo_procGo (n : ℚ) (perFile : List (List ℚ)) :
    ∀ i, batchGo n (i + 1) perFile = procGo n i perFile := by
  induction perFile with
  | nil => intro i; rfl
  | cons ps rest ih =>
    intro i
    rw [batchGo, procGo, ih (i + 1)]
    have : (fun p => (((i : ℚ) + 1) - 1 + p / 100) / n * 100) =
        (fun p : ℚ => ((i : ℚ) + p / 100) / n * 100) := by
      funext p
      ring_nf
    simp only [Nat.cast_add, Nat.cast_one, this]

theorem batchGo_append (n : ℚ) (xs ys : List (List ℚ)) :
    ∀ i, batchGo n i (xs ++ ys) = batchGo n i xs ++ batchGo n (i + xs.length) ys := by
  induction xs with
  | nil => intro i; simp [batchGo]
  | cons ps rest ih =>
    intro i
    have hcons : (ps :: rest) ++ ys = ps :: (rest ++ ys) := rfl
    rw [hcons]
    simp only [batchGo, List.length_cons]
    rw [ih (i + 1), List.append_assoc]
    have harith : i + (rest.length + 1) = i + 1 + rest.length := by omega
    rw [harith]

/- ===== Helper lemmas: bitrate clamp ===== -/

theorem clampComm (lo hi t : Int) (h : lo ≤ hi) :
    min (max lo t) hi = max lo (min t hi) := by
  omega

/- ===== Claim theorems ===== -/

/-- C2: for every codec name, source bitrate and channel count,
`equivalent_aac_bitrate` agrees with the specification policy
`target_audio_bitrate_spec` (defaults 128000/320000/512000 when the bitrate
is missing or nonpositive; otherwise `int(bitrate * scale)` with scale 1
for aac/opus/vorbis and unknown codecs, 0.8 for the legacy lossy set, 1.5
for the lossless set, clamped per channel count), and it reproduces the
spec's concrete test vectors. -/
theorem c2_bitrate_policy (codec : String) (bitrate : Option Int) (channels : Option Int) :
    equivalent_aac_bitrate codec bitrate channels =
      target_audio_bitrate_spec codec bitrate channels ∧
    equivalent_aac_bitrate "mp3" (some 200000) (some 2) = 160000 ∧
    equivalent_aac_bitrate "flac" (some 1000000) (some 2) = 320000 ∧
    equivalent_aac_bitrate codec none channels = channelDefault channels ∧
    channelDefault (some 1) = 128000 ∧ channelDefault (some 2) = 320000 ∧
    channelDefault none = 512000 := by
  refine ⟨?_, ?_, ?_, rfl, by decide, by decide, by decide⟩
  · cases bitrate with
    | none => rfl
    | some b =>
      by_cases hb : b ≤ 0
      · simp [equivalent_aac_bitrate, target_audio_bitrate_spec, channelDefault, hb]
      · simp only [equivalent_aac_bitrate, target_audio_bitrate_spec, hb, if_false,
          EFFICIENT_CODECS, LEGACY_LOSSY_CODECS, LOSSLESS_CODECS]
        split_ifs <;> (try simp only [mul_one, Int.floor_intCast]) <;>
          exact clampComm _ _ _ (by norm_num)
  · have hm1 : ¬ ("mp3" ∈ EFFICIENT_CODECS) := by decide
    have hm2 : "mp3" ∈ LEGACY_LOSSY_CODECS := by decide
    have hb' : ¬ ((200000 : Int) ≤ 0) := by decide
    have hch1 : ¬ ((some (2 : Int)) = some (1 : Int)) := by decide
    have hfl : ⌊((200000 : Int) : ℚ) * (8 / 10)⌋ = (160000 : Int) := by
      rw [show ((200000 : Int) : ℚ) * (8 / 10) = ((160000 : Int) : ℚ) by push_cast; norm_num]
      exact Int.floor_intCast _
    simp only [equivalent_aac_bitrate, hm1, hm2, hb', hch1, if_false, if_true]
    rw [hfl]
    decide
  · have hm1 : ¬ ("flac" ∈ EFFICIENT_CODECS) := by decide
    have hm2 : ¬ ("flac" ∈ LEGACY_LOSSY_CODECS) := by decide
    have hm3 : "flac" ∈ LOSSLESS_CODECS := by decide
    have hb' : ¬ ((1000000 : Int) ≤ 0) := by decide
    have hch1 : ¬ ((some (2 : Int)) = some (1 : Int)) := by decide
    have hfl : ⌊((1000000 : Int) : ℚ) * (3 / 2)⌋ = (1500000 : Int) := by
      rw [show ((1000000 : Int) : ℚ) * (3 / 2) = ((1500000 : Int) : ℚ) by push_cast; norm_num]
      exact Int.floor_intCast _
    simp only [equivalent_aac_bitrate, hm1, hm2, hm3, hb', hch1, if_false, if_true]
    rw [hfl]
    decide

/-- C3: in every command built by `build_ffmpeg_command`, a video stream's
chunk is the copy form exactly when its codec is h264 and otherwise is the
libx264 transcode with the crf and preset options; an audio stream's chunk
is the copy form exactly when its codec is aac and its bitrate reaches the
target computed by `equivalent_aac_bitrate`, and otherwise is the aac
transcode at that target with the fixed aac_low profile. -/
theorem c3_copy_vs_transcode (s : StreamInfo) (v a : Nat) (crf : Int) (preset : String) :
    (s.codec_type = "video" →
      ((chunkFor s v a crf preset =
          ["-map", "0:" ++ toString s.index, "-c:v:" ++ toString v, "copy"]) ↔
        s.codec_name = "h264") ∧
      (s.codec_name ≠ "h264" →
        chunkFor s v a crf preset =
          ["-map", "0:" ++ toString s.index, "-c:v:" ++ toString v, "libx264",
           "-crf", toString crf, "-preset", preset])) ∧
    (s.codec_type = "audio" →
      ((chunkFor s v a crf preset =
          ["-map", "0:" ++ toString s.index, "-c:a:" ++ toString a, "copy"]) ↔
        (s.codec_name = "aac" ∧
         s.bit_rate ≥ equivalent_aac_bitrate s.codec_name (some s.bit_rate) s.channels)) ∧
      (¬(s.codec_name = "aac" ∧
         s.bit_rate ≥ equivalent_aac_bitrate s.codec_name (some s.bit_rate) s.channels) →
        chunkFor s v a crf preset =
          ["-map", "0:" ++ toString s.index, "-c:a:" ++ toString a, "aac",
           "-profile:a", "aac_low", "-b:a:" ++ toString a,
           toString (equivalent_aac_bitrate s.codec_name (some s.bit_rate) s.channels)])) := by
  constructor
  · intro ht
    have hch : chunkFor s v a crf preset = videoArgs s v crf preset := by
      simp [chunkFor, ht]
    rw [hch]
    unfold videoArgs
    by_cases hcn : s.codec_name = "h264"
    · simp [hcn]
    · rw [if_neg hcn]
      constructor
      · constructor
        · intro heq
          exfalso
          have := congrArg List.length heq
          simp at this
        · intro hcn'
          exact absurd hcn' hcn
      · intro _
        rfl
  · intro ht
    have hne : s.codec_type ≠ "video" := by
      rw [ht]
      decide
    have hch : chunkFor s v a crf preset = audioArgs s a := by
      simp [chunkFor, ht, hne]
    rw [hch]
    simp only [audioArgs]
    by_cases hc : s.codec_name = "aac" ∧
        s.bit_rate ≥ equivalent_aac_bitrate s.codec_name (some s.bit_rate) s.channels
    · simp [hc]
    · rw [if_neg hc]
      constructor
      · constructor
        · intro heq
          exfalso
          have := congrArg List.length heq
          simp at this
        · intro hc'
          exact absurd hc' hc
      · intro _
        rfl

/-- C6: `convert_file` with an existing output returns the skip outcome
(no encoder start, no emissions, no final 100); otherwise the run starts
the encoder, emits the final 100 exactly when the exit status is zero and
a callback was supplied, and on a nonzero exit status only reports the
failure (the model is a total function: no exception is raised) and emits
no final 100. -/
theorem c6_skip_and_exit_status (hasCb : Bool) (lines : List (List Char)) (exit : Int) :
    (convert_file true hasCb lines exit = ⟨false, [], false, false⟩) ∧
    ((convert_file false hasCb lines exit).started = true) ∧
    ((convert_file false hasCb lines exit).final100 = true ↔ (exit = 0 ∧ hasCb = true)) ∧
    (exit ≠ 0 → (convert_file false hasCb lines exit).failureReported = true ∧
                (convert_file false hasCb lines exit).final100 = false) := by
  by_cases he : exit = 0 <;> cases hasCb <;> simp [convert_file, he]

/-- C6 witness: at output-exists with a callback and a failing exit status,
the skip outcome and the failure-reporting behaviour are realized. -/
theorem c6_skip_and_exit_status_witness :
    (convert_file true true [] 1 = ⟨false, [], false, false⟩) ∧
    (convert_file false true [] 1).failureReported = true ∧
    (convert_file false true [] 1).final100 = false :=
  ⟨(c6_skip_and_exit_status true [] 1).1,
   ((c6_skip_and_exit_status true [] 1).2.2.2 (by decide)).1,
   ((c6_skip_and_exit_status true [] 1).2.2.2 (by decide)).2⟩

/-- C7 (amended): `get_streams` returns the empty list whenever
`json.loads` fails, and never raises when the parsed value is a JSON
object: an absent `streams` field gives the empty list and an array-valued
`streams` field is returned as-is.  (As stated, the claim is false: a
prober output that parses to a non-object JSON value makes the `.get`
attribute access raise, see the counterexample.) -/
theorem c7_prober_robustness_amended (p : Except Unit PyJson) :
    (p = .error () → get_streams p = .ok (.arr [])) ∧
    (∀ kvs, p = .ok (.obj kvs) → get_streams p ≠ .raised) ∧
    (∀ kvs xs, p = .ok (.obj kvs) → List.lookup "streams" kvs = some (.arr xs) →
      get_streams p = .ok (.arr xs)) ∧
    (∀ kvs, p = .ok (.obj kvs) → List.lookup "streams" kvs = none →
      get_streams p = .ok (.arr [])) := by
  refine ⟨?_, ?_, ?_, ?_⟩
  · intro h
    rw [h]
    rfl
  · intro kvs h
    rw [h]
    simp [get_streams]
  · intro kvs xs h hl
    rw [h]
    simp [get_streams, hl]
  · intro kvs h hl
    rw [h]
    simp [get_streams, hl]

/-- C7 counterexample: the prober output `null` is valid JSON, so
`json.loads` succeeds with a non-dict value and the `.get` call raises an
uncaught `AttributeError` — `get_streams` neither returns a sequence nor
an empty result, refuting the claim that it never throws. -/
theorem c7_prober_raises_counterexample :
    get_streams (.ok PyJson.null) = .raised := rfl

/-- C7 witness: a decode failure yields the empty stream list, and an
object-shaped parse with an array `streams` field is returned without
raising. -/
theorem c7_prober_robustness_witness :
    get_streams (.error ()) = .ok (.arr []) ∧
    get_streams (.ok (.obj [])) ≠ .raised ∧
    get_streams (.ok (.obj [("streams", .arr [])])) = .ok (.arr []) :=
  ⟨(c7_prober_robustness_amended (.error ())).1 rfl,
   (c7_prober_robustness_amended (.ok (.obj []))).2.1 [] rfl,
   (c7_prober_robustness_amended (.ok (.obj [("streams", .arr [])]))).2.2.1
     [("streams", .arr [])] [] rfl (by simp [List.lookup])⟩

/-- C9: every command built by `build_ffmpeg_command` is the fixed prefix
`[ffmpeg, -y, -i, input]`, then the specification middle in which each
video or audio stream contributes, in source order, its `-map 0:index`
directive followed by its codec option at a per-type output index equal to
the number of preceding streams of the same type, then the fixed suffix
`[-movflags, +faststart, output]`; streams of any other type contribute no
arguments, and every mapped chunk begins with its `-map` directive. -/
theorem c9_command_shape (input output : String) (streams : List StreamInfo)
    (crf : Int) (preset : String) :
    build_ffmpeg_command input output streams crf preset =
      ["ffmpeg", "-y", "-i", input] ++ specMiddle crf preset [] streams ++
        ["-movflags", "+faststart", output] ∧
    (∀ s : StreamInfo, ∀ v a : Nat, s.codec_type ≠ "video" → s.codec_type ≠ "audio" →
      chunkFor s v a crf preset = []) ∧
    (∀ s : StreamInfo, ∀ v a : Nat, s.codec_type = "video" ∨ s.codec_type = "audio" →
      (chunkFor s v a crf preset).take 2 = ["-map", "0:" ++ toString s.index]) := by
  refine ⟨?_, ?_, ?_⟩
  · rw [specMiddle_streamArgs]
    rfl
  · intro s v a hv ha
    simp [chunkFor, hv, ha]
  · intro s v a h
    cases h with
    | inl hv => simp [chunkFor, hv, videoArgs]
    | inr ha =>
      have hne : s.codec_type ≠ "video" := by
        rw [ha]
        decide
      simp [chunkFor, ha, hne, audioArgs]

/-- C9 witness: on a one-stream h264 input the command equals the
specification shape, a data stream contributes nothing, and a video chunk
starts with its map directive. -/
theorem c9_command_shape_witness :
    build_ffmpeg_command "in.mkv" "out.mp4" [⟨0, "video", "h264", none, 0⟩] 18 "slow" =
      ["ffmpeg", "-y", "-i", "in.mkv"] ++
        specMiddle 18 "slow" [] [⟨0, "video", "h264", none, 0⟩] ++
        ["-movflags", "+faststart", "out.mp4"] ∧
    chunkFor ⟨1, "data", "bin", none, 0⟩ 0 0 18 "slow" = [] ∧
    (chunkFor ⟨0, "video", "h264", none, 0⟩ 0 0 18 "slow").take 2 =
      ["-map", "0:" ++ toString (0 : Int)] :=
  ⟨(c9_command_shape "in.mkv" "out.mp4" [⟨0, "video", "h264", none, 0⟩] 18 "slow").1,
   (c9_command_shape "in.mkv" "out.mp4" [] 18 "slow").2.1 ⟨1, "data", "bin", none, 0⟩ 0 0
     (by decide) (by decide),
   (c9_command_shape "in.mkv" "out.mp4" [] 18 "slow").2.2 ⟨0, "video", "h264", none, 0⟩ 0 0
     (Or.inl rfl)⟩

/-- C3 witness: a hevc video stream is transcoded with the crf and preset
options present. -/
theorem c3_copy_vs_transcode_witness :
    chunkFor ⟨0, "video", "hevc", none, 0⟩ 0 0 18 "slow" =
      ["-map", "0:" ++ toString (0 : Int), "-c:v:" ++ toString (0 : Nat), "libx264",
       "-crf", toString (18 : Int), "-preset", "slow"] :=
  ((c3_copy_vs_transcode ⟨0, "video", "hevc", none, 0⟩ 0 0 18 "slow").1 rfl).2 (by decide)

/-- C4: for every sequence of diagnostic lines fed to the progress-parsing
loop of `convert_file`, the final duration state is the value of the first
line on which the duration branch fires (later duration lines never change
it), and the emission sequence is exactly `emitsAfter` applied to the lines
after that first duration line: time-matched lines once the duration is
known (and truthy) emit `min (elapsed / duration * 100) 100`, every other
line emits nothing, and no line emits before the duration is known.  The
parsing functions are total, so no line sequence can crash the loop. -/
theorem c4_progress_scan (lines : List (List Char)) :
    (runLoop true none lines).1 = (findDur true lines).map Prod.fst ∧
    (runLoop true none lines).2 =
      (findDur true lines).elim [] (fun p => emitsAfter true p.1 p.2) := by
  rw [runLoop_none]
  exact ⟨rfl, rfl⟩

/-- C5: once the cancellation flag is observed at line index `k` during a
run, the control loop terminates the subprocess, the emissions are exactly
those of the first `k` lines (nothing further, and no final 100), and the
scheduling loop started only the files before the cancellation check that
observed the flag. -/
theorem c5_cancellation (lines : List (List Char)) (k : Nat) (exit : Int)
    (files : List String) (j : Nat) (hk : k < lines.length) :
    (convert_file_with_control false (some k) lines exit).terminated = true ∧
    (convert_file_with_control false (some k) lines exit).emissions =
      (runLoop false none (lines.take k)).2 ∧
    schedulerStarted (some j) files = files.take j := by
  refine ⟨?_, ?_, ?_⟩
  · simp [convert_file_with_control, loopWC_some_eq, hk]
  · rw [wc_emissions_eq]
    have hch : cancelHit (some k) lines.length = true := by
      simp only [cancelHit, decide_eq_true_eq]
      omega
    simp [hch]
  · unfold schedulerStarted
    rw [schedLoop_some_eq]
    simp

/-- C5 witness: cancelling at index 1 of a two-line run terminates the
subprocess, freezes the emissions at the first line, and the scheduler
started only the first of two files. -/
theorem c5_cancellation_witness :
    (convert_file_with_control false (some 1)
        [String.toList "a", String.toList "b"] 0).terminated = true ∧
    (convert_file_with_control false (some 1)
        [String.toList "a", String.toList "b"] 0).emissions =
      (runLoop false none ([String.toList "a", String.toList "b"].take 1)).2 ∧
    schedulerStarted (some 1) ["f1", "f2"] = ["f1", "f2"].take 1 :=
  c5_cancellation [String.toList "a", String.toList "b"] 1 0 ["f1", "f2"] 1 (by decide)

/-- C8: the overall-progress sequences of `batch_convert` and of
`process_conversion` coincide; while the file at 1-based position
`pre.length + 1` is in flight reporting percent `p`, the delivered overall
value is `(pre.length + p / 100) / total * 100`; and in the spec's concrete
scenario (file 1 complete, file 2 at 50%) the delivered values are 50 and
then exactly 75. -/
theorem c8_overall_percent (perFile pre post : List (List ℚ)) (ps : List ℚ) :
    batch_overalls perFile = process_overalls perFile ∧
    (∃ l r, batch_overalls (pre ++ ps :: post) =
      l ++ ps.map (fun p =>
        ((pre.length : ℚ) + p / 100) / (((pre ++ ps :: post).length : ℚ)) * 100) ++ r) ∧
    batch_overalls [[100], [50]] = [50, 75] := by
  refine ⟨?_, ?_, ?_⟩
  · unfold batch_overalls process_overalls
    exact batchGo_procGo _ _ 0
  · refine ⟨batchGo (((pre ++ ps :: post).length : ℚ)) 1 pre,
      batchGo (((pre ++ ps :: post).length : ℚ)) (1 + pre.length + 1) post, ?_⟩
    unfold batch_overalls
    rw [batchGo_append _ pre (ps :: post) 1]
    rw [show batchGo (((pre ++ ps :: post).length : ℚ)) (1 + pre.length) (ps :: post) =
        ps.map (fun p => (((1 + pre.length : Nat) : ℚ) - 1 + p / 100) /
          (((pre ++ ps :: post).length : ℚ)) * 100) ++
        batchGo (((pre ++ ps :: post).length : ℚ)) (1 + pre.length + 1) post from rfl]
    have hfun : (fun p : ℚ => (((1 + pre.length : Nat) : ℚ) - 1 + p / 100) /
          (((pre ++ ps :: post).length : ℚ)) * 100) =
        (fun p : ℚ => ((pre.length : ℚ) + p / 100) /
          (((pre ++ ps :: post).length : ℚ)) * 100) := by
      funext p
      push_cast
      ring_nf
    rw [hfun, List.append_assoc]
  · norm_num [batch_overalls, batchGo]

/-- C10 (amended): an input file whose suffix is exactly the lowercase
`.mp4` has `with_suffix(".mp4")` equal to the input path itself, so if the
input exists the batch loop's `convert_file` call returns at the
skip-if-exists check: the encoder is never started and nothing is emitted.
(As stated, the claim is false for upper- or mixed-case `.MP4` extensions,
whose computed output path differs from the input, see the
counterexample.) -/
theorem c10_mp4_skip_amended (name : List Char) (fs : List Char → Bool)
    (lines : List (List Char)) (exit : Int)
    (hsuf : pathSuffix name = ".mp4".toList) (hfs : fs name = true) :
    withSuffixL name (".mp4".toList) = name ∧
    batchOutputName name = name ∧
    (batchStep fs name lines exit).started = false ∧
    (batchStep fs name lines exit).emissions = [] := by
  have hids : ∃ i, rfindChar name '.' = some i ∧ 0 < i ∧ i < name.length - 1 ∧
      name.drop i = ".mp4".toList := by
    cases hr : rfindChar name '.' with
    | none =>
      have hps : pathSuffix name = [] := by
        unfold pathSuffix
        rw [hr]
      rw [hps] at hsuf
      simp at hsuf
    | some i =>
      have hps : pathSuffix name =
          if 0 < i ∧ i < name.length - 1 then name.drop i else [] := by
        unfold pathSuffix
        rw [hr]
      rw [hps] at hsuf
      by_cases hc : 0 < i ∧ i < name.length - 1
      · rw [if_pos hc] at hsuf
        exact ⟨i, rfl, hc.1, hc.2, hsuf⟩
      · rw [if_neg hc] at hsuf
        simp at hsuf
  obtain ⟨i, hi, hipos, hilt, hdrop⟩ := hids
  have hlen4 : name.length - i = 4 := by
    have hl := congrArg List.length hdrop
    rw [List.length_drop] at hl
    simpa using hl
  have hw : withSuffixL name (".mp4".toList) = name := by
    simp only [withSuffixL, hsuf]
    rw [if_neg (by decide : ¬(".mp4".toList).isEmpty = true)]
    rw [show (".mp4".toList).length = 4 from by decide]
    have hi4 : name.length - 4 = i := by omega
    rw [hi4, ← hdrop, List.take_append_drop]
  refine ⟨hw, ?_, ?_, ?_⟩
  · unfold batchOutputName
    exact hw
  · unfold batchStep batchOutputName
    rw [hw, hfs]
    rfl
  · unfold batchStep batchOutputName
    rw [hw, hfs]
    rfl

/-- C10 witness: a lowercase `a.mp4` input that exists maps to itself and
is skipped without starting the encoder. -/
theorem c10_mp4_skip_witness :
    withSuffixL ("a.mp4".toList) (".mp4".toList) = "a.mp4".toList ∧
    batchOutputName ("a.mp4".toList) = "a.mp4".toList ∧
    (batchStep (fun s => s == "a.mp4".toList) ("a.mp4".toList) [] 0).started = false ∧
    (batchStep (fun s => s == "a.mp4".toList) ("a.mp4".toList) [] 0).emissions = [] :=
  c10_mp4_skip_amended ("a.mp4".toList) (fun s => s == "a.mp4".toList) [] 0
    (by decide) (by decide)

/-- C10 counterexample: `a.MP4` is enumerated as a candidate (its
lowercased suffix is a supported extension), yet its computed output path
`a.mp4` differs from the input path, and with a filesystem containing only
`a.MP4` the batch step does start the encoder — refuting the claim that
any-case `.mp4` files map to themselves and are never converted. -/
theorem c10_uppercase_counterexample :
    toLowerL (pathSuffix ("a.MP4".toList)) = ".mp4".toList ∧
    isVideoName ("a.MP4".toList) = true ∧
    batchOutputName ("a.MP4".toList) ≠ "a.MP4".toList ∧
    (batchStep (fun s => s == "a.MP4".toList) ("a.MP4".toList) [] 0).started = true := by
  refine ⟨by decide, by decide, by decide, by decide⟩

/-- C1 (amended): every percentage either conversion loop reports lies in
[0, 100] unconditionally; and provided the elapsed times carried by the
successive `time=` progress lines are non-decreasing (which is what a real
encoder emits), the reported sequence is monotonically non-decreasing for
both `convert_file` and `convert_file_with_control`, under any cancellation
schedule.  (As stated, with no assumption on the lines, the monotonicity
half of the claim is false: the code re-emits whatever ratio each line
yields, see the counterexample.) -/
theorem c1_percent_bounds_and_monotone (lines : List (List Char)) (exit : Int)
    (cancelAt : Option Nat) :
    (∀ q ∈ (convert_file false true lines exit).emissions, 0 ≤ q ∧ q ≤ 100) ∧
    (∀ q ∈ (convert_file_with_control false cancelAt lines exit).emissions,
      0 ≤ q ∧ q ≤ 100) ∧
    (List.Pairwise (· ≤ ·) (lines.filterMap (timeParse true)) →
      List.Pairwise (· ≤ ·) (convert_file false true lines exit).emissions) ∧
    (List.Pairwise (· ≤ ·) (lines.filterMap (timeParse false)) →
      List.Pairwise (· ≤ ·) (convert_file_with_control false cancelAt lines exit).emissions) := by
  have hinit : ∀ x : ℚ, (none : Option ℚ) = some x → 0 ≤ x :=
    fun x hx => Option.noConfusion hx
  refine ⟨?_, ?_, ?_, ?_⟩
  · intro q hq
    rw [convert_file_emissions] at hq
    rcases List.mem_append.mp hq with h | h
    · exact runLoop_bounds true lines none hinit q h
    · by_cases he : exit = 0
      · simp [he] at h
        rw [h]
        norm_num
      · simp [he] at h
  · intro q hq
    rw [wc_emissions_eq] at hq
    rcases List.mem_append.mp hq with h | h
    · exact runLoop_bounds false (lines.take (cancelAt.getD lines.length)) none hinit q h
    · by_cases hcond : exit = 0 ∧ cancelHit cancelAt lines.length = false
      · simp [hcond] at h
        rw [h]
        norm_num
      · simp [hcond] at h
  · intro hmono
    rw [convert_file_emissions]
    have hp := runLoop_none_mono true lines hmono
    rw [List.pairwise_append]
    refine ⟨hp, ?_, ?_⟩
    · by_cases he : exit = 0 <;> simp [he]
    · intro a ha b hb
      by_cases he : exit = 0
      · simp [he] at hb
        rw [hb]
        exact (runLoop_bounds true lines none hinit a ha).2
      · simp [he] at hb
  · intro hmono
    rw [wc_emissions_eq]
    have hmono' : List.Pairwise (· ≤ ·)
        ((lines.take (cancelAt.getD lines.length)).filterMap (timeParse false)) :=
      hmono.sublist ((List.take_sublist _ _).filterMap _)
    have hp := runLoop_none_mono false (lines.take (cancelAt.getD lines.length)) hmono'
    rw [List.pairwise_append]
    refine ⟨hp, ?_, ?_⟩
    · by_cases hcond : exit = 0 ∧ cancelHit cancelAt lines.length = false <;> simp [hcond]
    · intro a ha b hb
      by_cases hcond : exit = 0 ∧ cancelHit cancelAt lines.length = false
      · simp [hcond] at hb
        rw [hb]
        exact (runLoop_bounds false _ none hinit a ha).2
      · simp [hcond] at hb

/-- C1 witness: on an empty diagnostic stream with a zero exit status the
bounds hold and the monotone conclusion is realized (the time sequence is
vacuously non-decreasing). -/
theorem c1_percent_bounds_and_monotone_witness :
    List.Pairwise (α := ℚ) (· ≤ ·) ((convert_file false true [] 0).emissions) :=
  (c1_percent_bounds_and_monotone [] 0 none).2.2.1 List.Pairwise.nil

/-- C1 counterexample: a duration line followed by `time=` lines whose
elapsed times go backwards (5 s then 1 s over a 10 s duration) makes
`convert_file` report 50 and then 10 — the reported sequence is not
monotonically non-decreasing, refuting the claim over arbitrary encoder
line sequences. -/
theorem c1_not_monotone_counterexample :
    ¬ List.Pairwise (· ≤ ·)
      ((convert_file false true
        [String.toList "Duration: 00:00:10.00",
         String.toList "time=00:00:05.00",
         String.toList "time=00:00:01.00"] 1).emissions) := by
  intro hpw
  have hfd : findDur true
      [String.toList "Duration: 00:00:10.00",
       String.toList "time=00:00:05.00",
       String.toList "time=00:00:01.00"] =
      some (timeVal (0, 0, 10, 0),
        [String.toList "time=00:00:05.00", String.toList "time=00:00:01.00"]) := by
    have hc : containsL (String.toList "Duration: 00:00:10.00") ("Duration".toList) = true := by
      decide
    have hs : searchTS true ("Duration: ".toList) (String.toList "Duration: 00:00:10.00") =
        some (0, 0, 10, 0) := by decide
    rw [findDur, if_pos hc, durSearch, hs]
    rfl
  have ht5 : timeParse true (String.toList "time=00:00:05.00") = some (timeVal (0, 0, 5, 0)) := by
    have hc : containsL (String.toList "time=00:00:05.00") ("time=".toList) = true := by decide
    have hs : searchTS true ("time=".toList) (String.toList "time=00:00:05.00") =
        some (0, 0, 5, 0) := by decide
    rw [timeParse, if_pos hc, timeSearch, hs]
    rfl
  have ht1 : timeParse true (String.toList "time=00:00:01.00") = some (timeVal (0, 0, 1, 0)) := by
    have hc : containsL (String.toList "time=00:00:01.00") ("time=".toList) = true := by decide
    have hs : searchTS true ("time=".toList) (String.toList "time=00:00:01.00") =
        some (0, 0, 1, 0) := by decide
    rw [timeParse, if_pos hc, timeSearch, hs]
    rfl
  have htv : timeVal (0, 0, 10, 0) = 10 := by
    norm_num [timeVal]
  have hems : (convert_file false true
      [String.toList "Duration: 00:00:10.00",
       String.toList "time=00:00:05.00",
       String.toList "time=00:00:01.00"] 1).emissions = [50, 10] := by
    rw [convert_file_emissions, runLoop_none, hfd]
    rw [if_neg (by norm_num : ¬(1 : Int) = 0), List.append_nil]
    simp only [Option.elim]
    rw [emitsAfter, htv]
    rw [if_neg (by norm_num : ¬(10 : ℚ) = 0)]
    rw [List.filterMap_cons_some ht5, List.filterMap_cons_some ht1,
      List.filterMap_nil]
    norm_num [timeVal, min_def]
  rw [hems] at hpw
  have h50 := (List.pairwise_cons.mp hpw).1 10 (by simp)
  norm_num at h50
